import Mathlib

/-!
# MiniballSort: the EBIS gate and the time-ordering strategies of `MiniballConverter`

A shallow embedding of `include/Converter.hh`.

* `MiniballConverter` is the record of the data members of the C++ class, among them the
  EBIS configuration `ebis_period`, `ebis_tm_stp` and the two ordering buffers `data_vector`
  and `data_map`.
* `EBISWindow` is the inline member function of lines 82-90, written with explicit state
  passing: it returns the `bool` result together with the object state after the call.
* C++ `long long` is 64-bit two's complement and `unsigned int` is 32 bits.  Values are
  integers of Lean; the `long long` subtraction and addition are followed by an explicit
  reduction to the 64-bit range (`wrap64`), and `%` is the truncating remainder `Int.tmod`.
* `EBISWindowChecked` evaluates the same expression with every undefined operation of C++
  (signed overflow, division by zero) reported as `none`.
* The bodies of `SortDataVector`, `SortDataMap`, `TimeComparator` and `MapComparator` are not
  in the header; they are modelled from the specification, over the types the header
  declares: the time of an entry of `data_map` is a `double`, the 64-bit timestamp of the
  packet rounded to a 53-bit significand.
-/

namespace Miniball

/-! ## Machine integers -/

/-- Smallest value of a C++ `long long`. -/
def INT64_MIN : Int := -9223372036854775808

/-- Largest value of a C++ `long long`. -/
def INT64_MAX : Int := 9223372036854775807

/-- Largest value of a C++ `unsigned int`. -/
def UINT32_MAX : Nat := 4294967295

/-- Representability of an integer as a `long long`. -/
def inInt64 (x : Int) : Prop := INT64_MIN ≤ x ∧ x ≤ INT64_MAX

instance (x : Int) : Decidable (inInt64 x) := by
  unfold inInt64; exact inferInstance

/-- Reduction of an integer to the 64-bit two's-complement range. -/
def wrap64 (x : Int) : Int := (x + 9223372036854775808) % 18446744073709551616 - 9223372036854775808

/-- The `long long` subtraction `a - b`. -/
def sub64 (a b : Int) : Int := wrap64 (a - b)

/-- The `long long` addition `a + b`. -/
def add64 (a b : Int) : Int := wrap64 (a + b)

/-- The `long long` remainder `a % b` of C++: the quotient is truncated towards zero, so the
result has the sign of `a`.  For operands in range and a positive divisor the result is in
range; `EBISWindow` divides by `ebis_period` only after the test `ebis_period == 0`. -/
def rem64 (a b : Int) : Int := Int.tmod a b

/-- The usual arithmetic conversion of an `unsigned int` operand to `long long`
(value preserving). -/
def toLongLong (u : Nat) : Int := Int.ofNat u

/-! ## The `double` of the keys of `data_map` -/

/-- A finite C++ `double` (IEEE 754 binary64) with an integral value, held by that value.
The conversion of a `long long` always gives such a value; the `double` members of the
entries of `data_map` are produced by that conversion only. -/
structure Double where
  value : Int
  deriving DecidableEq

/-- The number of low-order bits of `n` that do not fit a significand of 53 bits, searched
among at most `fuel` bits. -/
def excessBits : Nat → Nat → Nat
  | 0, _ => 0
  | fuel + 1, n => if n < 9007199254740992 then 0 else excessBits fuel (n / 2) + 1

/-- The natural number `n` rounded to a multiple of `2 ^ e`, to the nearest and, half way
between two, to the one with the even quotient. -/
def roundAt (e n : Nat) : Nat :=
  if 2 * (n % 2 ^ e) < 2 ^ e then n / 2 ^ e * 2 ^ e
  else if 2 ^ e < 2 * (n % 2 ^ e) then (n / 2 ^ e + 1) * 2 ^ e
  else if n / 2 ^ e % 2 = 0 then n / 2 ^ e * 2 ^ e
  else (n / 2 ^ e + 1) * 2 ^ e

/-- The magnitude `n < 2 ^ 64` rounded to 53 significant bits, to nearest, ties to even. -/
def roundMagnitude (n : Nat) : Nat := roundAt (excessBits 64 n) n

/-- The conversion of a `long long` to `double`: exact up to magnitude `2 ^ 53`, rounded to 53
significant bits (to nearest, ties to even) above. -/
def Double.ofLongLong (x : Int) : Double :=
  if 0 ≤ x then ⟨Int.ofNat (roundMagnitude x.toNat)⟩
  else ⟨-Int.ofNat (roundMagnitude (-x).toNat)⟩

/-! ## Data packets and the converter state -/

/-- Modelled from the spec: the class `MiniballDataPackets` of `DataPackets.hh`, which is not
among the sources.  Of a decoded packet the ordering reads the reconstructed timestamp
("a signed 64-bit integer"); the other fields are an opaque payload. -/
structure MiniballDataPackets where
  time : Int
  payload : Nat
  deriving DecidableEq

/-- The data members of `class MiniballConverter` (lines 101-213), in the order of the
header.  Unsigned members are natural numbers, signed members integers, `std::vector` members
lists, and an entry of `data_map` is a pair of an index and a `double`.  The log stream, the `float my_energy` and the handles to external objects (packets
being built, output file and trees, histograms, settings, calibration, progress bar) are not
part of the record. -/
structure MiniballConverter where
  flag_source : Bool
  flag_ebis : Bool
  flag_febex_data0 : Bool
  flag_febex_data1 : Bool
  flag_febex_data2 : Bool
  flag_febex_data3 : Bool
  flag_febex_trace : Bool
  flag_febex_info : Bool
  my_good_tm_stp : Nat
  my_tm_stp : Nat
  sync_tm_stp : Nat
  ebis_tm_stp : Int
  my_event_id : Nat
  my_tm_stp_lsb : Nat
  my_tm_stp_msb : Nat
  my_tm_stp_hsb : Nat
  sync_tm_stp_msb : Nat
  sync_tm_stp_hsb : Nat
  my_info_field : Nat
  ebis_period : Nat
  ebis_first : Nat
  my_info_code : Nat
  my_type : Nat
  my_tdiff_data : Nat
  my_adc_data : Nat
  my_adc_data_lsb : Nat
  my_adc_data_hsb : Nat
  my_adc_data_int : Nat
  my_tag_id : Nat
  my_sfp_id : Nat
  my_board_id : Nat
  my_ch_id : Nat
  my_data_id : Nat
  my_trig_id : Nat
  my_hit_time : Int
  my_pileup : Bool
  my_clip : Bool
  my_flagbit : Bool
  nsamples : Nat
  mbs_data : Bool
  midas_data : Bool
  med_data : Bool
  buffer_full : Bool
  buffer_part : Bool
  qmax_default : Nat
  data_vector : List MiniballDataPackets
  data_map : List (Nat × Double)
  ctr_dgf_hit : List Nat
  ctr_madc_hit : List Nat
  ctr_caen_hit : List Nat
  ctr_febex_hit : List (List Nat)
  ctr_febex_pause : List (List Nat)
  ctr_febex_resume : List (List Nat)
  ctr_febex_sync : List (List Nat)
  jump_ctr : Nat
  warp_ctr : Nat
  mash_ctr : Nat
  data_ctr : Nat
  reject_ctr : Nat
  first_data : List Bool
  tm_stp_read : List Int
  tm_stp_febex : List (List Int)
  tm_stp_febex_ch : List (List (List Int))
  deriving DecidableEq

/-- A converter whose members carry the in-class initialisers of the header (`= 0`,
`= false`); the members without an initialiser are set to zero, false or empty. -/
def freshConverter : MiniballConverter :=
  { flag_source := false, flag_ebis := false,
    flag_febex_data0 := false, flag_febex_data1 := false, flag_febex_data2 := false,
    flag_febex_data3 := false, flag_febex_trace := false, flag_febex_info := false,
    my_good_tm_stp := 0, my_tm_stp := 0, sync_tm_stp := 0, ebis_tm_stp := 0,
    my_event_id := 0, my_tm_stp_lsb := 0, my_tm_stp_msb := 0, my_tm_stp_hsb := 0,
    sync_tm_stp_msb := 0, sync_tm_stp_hsb := 0, my_info_field := 0,
    ebis_period := 0, ebis_first := 0, my_info_code := 0, my_type := 0,
    my_tdiff_data := 0, my_adc_data := 0, my_adc_data_lsb := 0, my_adc_data_hsb := 0,
    my_adc_data_int := 0, my_tag_id := 0, my_sfp_id := 0, my_board_id := 0, my_ch_id := 0,
    my_data_id := 0, my_trig_id := 0, my_hit_time := 0,
    my_pileup := false, my_clip := false, my_flagbit := false, nsamples := 0,
    mbs_data := false, midas_data := false, med_data := false,
    buffer_full := false, buffer_part := false, qmax_default := 0,
    data_vector := [], data_map := [],
    ctr_dgf_hit := [], ctr_madc_hit := [], ctr_caen_hit := [], ctr_febex_hit := [],
    ctr_febex_pause := [], ctr_febex_resume := [], ctr_febex_sync := [],
    jump_ctr := 0, warp_ctr := 0, mash_ctr := 0, data_ctr := 0, reject_ctr := 0,
    first_data := [], tm_stp_read := [], tm_stp_febex := [], tm_stp_febex_ch := [] }

/-- A converter configured with the given EBIS period and reference timestamp. -/
def ebisConverter (period : Nat) (tm_stp : Int) : MiniballConverter :=
  { freshConverter with ebis_period := period, ebis_tm_stp := tm_stp }

/-! ## `EBISWindow` (Converter.hh, lines 82-90) -/

/-- The local `long long test_t` of `EBISWindow`:
`((( t - ebis_tm_stp ) % ebis_period ) + ebis_period ) % ebis_period`,
every operation carried out in `long long`. -/
def test_t (self : MiniballConverter) (t : Int) : Int :=
  rem64 (add64 (rem64 (sub64 t self.ebis_tm_stp) (toLongLong self.ebis_period))
    (toLongLong self.ebis_period)) (toLongLong self.ebis_period)

/-- The member function `bool EBISWindow( long long int t )`.  The second component is the
state of the object after the call. -/
def EBISWindow (self : MiniballConverter) (t : Int) : Bool × MiniballConverter :=
  if self.ebis_period = 0 then (false, self)
  else (decide (test_t self t < 4000000) && decide (test_t self t > 0), self)

/-- The body of `EBISWindow` with the window width, the literal `4000000` of the source, taken
as the parameter `width`.  `EBISWindow` is the case `width = 4000000`; the worked example of
the specification scales the width to 40. -/
def EBISWindowOfWidth (width : Int) (self : MiniballConverter) (t : Int) :
    Bool × MiniballConverter :=
  if self.ebis_period = 0 then (false, self)
  else (decide (test_t self t < width) && decide (test_t self t > 0), self)

/-! ## Evaluation with undefined behaviour made explicit -/

/-- The `long long` subtraction with signed overflow reported as `none`. -/
def checkedSub (a b : Int) : Option Int :=
  if inInt64 (a - b) then some (a - b) else none

/-- The `long long` addition with signed overflow reported as `none`. -/
def checkedAdd (a b : Int) : Option Int :=
  if inInt64 (a + b) then some (a + b) else none

/-- The `long long` remainder with division by zero, and the overflowing quotient of
`INT64_MIN % -1`, reported as `none`. -/
def checkedRem (a b : Int) : Option Int :=
  if b = 0 then none
  else if a = INT64_MIN ∧ b = -1 then none
  else some (Int.tmod a b)

/-- The body of `EBISWindow` evaluated with checked `long long` operations, in the order the
expression is evaluated: `none` as soon as one operation divides by zero or overflows. -/
def EBISWindowChecked (self : MiniballConverter) (t : Int) : Option Bool :=
  if self.ebis_period = 0 then some false
  else
    (checkedSub t self.ebis_tm_stp).bind fun d =>
    (checkedRem d (toLongLong self.ebis_period)).bind fun r =>
    (checkedAdd r (toLongLong self.ebis_period)).bind fun s =>
    (checkedRem s (toLongLong self.ebis_period)).bind fun test =>
    some (decide (test < 4000000) && decide (test > 0))

/-- The formula of `EBISWindow` read over the unbounded integers, with the truncating
remainder of C++ and no reduction to 64 bits. -/
def EBISWindowUnbounded (ebis_period : Nat) (ebis_tm_stp t : Int) : Bool :=
  if ebis_period = 0 then false
  else
    decide (Int.tmod (Int.tmod (t - ebis_tm_stp) ebis_period + ebis_period) ebis_period
        < 4000000) &&
      decide (Int.tmod (Int.tmod (t - ebis_tm_stp) ebis_period + ebis_period) ebis_period
        > 0)

/-! ## Periodic markers -/

/-- A periodic marker: a value `ebis_tm_stp + k * ebis_period` for an integer `k`. -/
def IsMarker (self : MiniballConverter) (m : Int) : Prop :=
  ∃ k : Int, m = self.ebis_tm_stp + k * (self.ebis_period : Int)

/-- The most recent periodic marker at time `t`: the greatest marker not after `t`. -/
def IsMostRecentMarker (self : MiniballConverter) (t m : Int) : Prop :=
  IsMarker self m ∧ m ≤ t ∧ ∀ m2 : Int, IsMarker self m2 → m2 ≤ t → m2 ≤ m

/-- The most recent periodic marker at time `t`, computed. -/
def recentMarker (self : MiniballConverter) (t : Int) : Int :=
  t - (t - self.ebis_tm_stp) % (self.ebis_period : Int)

/-! ## The two ordering strategies

`SortDataVector`, `SortDataMap`, `TimeComparator` and `MapComparator` are declared in the
header (lines 54-60) and defined in a source file that is not part of `include/`. -/

/-- Modelled from the spec: the body of `TimeComparator`, which the header only declares.
"A comparator that orders strictly by ascending Timestamp". -/
def TimeComparator (lhs rhs : MiniballDataPackets) : Bool :=
  decide (lhs.time < rhs.time)

/-- Modelled from the spec: the body of `MapComparator`, which the header only declares, over
the `std::pair<unsigned long,double>` of its declaration: (index into `data_vector`, time as a
`double`).  The key order is that of the "(timestamp, disambiguator) pair": ascending time,
then ascending index of arrival. -/
def MapComparator (lhs rhs : Nat × Double) : Bool :=
  decide (lhs.2.value < rhs.2.value) ||
    (decide (lhs.2.value = rhs.2.value) && decide (lhs.1 < rhs.1))

/-- Modelled from the spec: one step of the stable sort of the vector strategy, the insertion
of `x` in front of the first element that does not precede it. -/
def insertFront {α : Type} (comp : α → α → Bool) (x : α) : List α → List α
  | [] => [x]
  | y :: ys => if comp y x then y :: insertFront comp x ys else x :: y :: ys

/-- Modelled from the spec: the sort "with stable tie-break on original insertion order" for
the strict comparator `comp`.  The elements are taken from the last to the first and each is
put in front of the elements that do not precede it. -/
def stableSort {α : Type} (comp : α → α → Bool) (l : List α) : List α :=
  l.foldr (insertFront comp) []

/-- Modelled from the spec: the insertion of the entry `e` into an association kept in key
order, in front of the first entry whose key is greater. -/
def mapInsert {α : Type} (comp : α → α → Bool) (e : α) : List α → List α
  | [] => [e]
  | y :: ys => if comp e y then e :: y :: ys else y :: mapInsert comp e ys

/-- Modelled from the spec: the entries added one at a time, in the order of arrival, to an
association kept in key order. -/
def mapInsertAll {α : Type} (comp : α → α → Bool) (l : List α) : List α :=
  l.foldl (fun acc e => mapInsert comp e acc) []

/-- Modelled from the spec: the body of `SortDataVector`, which the header only declares.
"Sort in place using a comparator that orders strictly by ascending Timestamp with stable
tie-break on original insertion order". -/
def SortDataVector (self : MiniballConverter) : MiniballConverter :=
  { self with data_vector := stableSort TimeComparator self.data_vector }

/-- Modelled from the spec: the body of `SortDataMap`, which the header only declares.
"Maintain an insertion keyed by a (timestamp, disambiguator) pair, relying on key ordering to
keep the association naturally sorted as packets are added incrementally". -/
def SortDataMap (self : MiniballConverter) : MiniballConverter :=
  { self with data_map := mapInsertAll MapComparator self.data_map }

/-- Modelled from the spec: `enqueue(EventPacket)`, whose code is not in the header.  The
packet goes to the end of `data_vector` and its (index, time) entry to the end of `data_map`,
the 64-bit timestamp converted to the `double` of the entry. -/
def enqueue (self : MiniballConverter) (p : MiniballDataPackets) : MiniballConverter :=
  { self with
    data_vector := self.data_vector ++ [p],
    data_map := self.data_map ++ [(self.data_vector.length, Double.ofLongLong p.time)] }

/-- Modelled from the spec: the converter `self` with both ordering buffers emptied and then
filled with `pkts` by `enqueue`, in their order of arrival. -/
def loadPackets (self : MiniballConverter) (pkts : List MiniballDataPackets) :
    MiniballConverter :=
  pkts.foldl enqueue { self with data_vector := [], data_map := [] }

/-- Modelled from the spec: `drain` with the vector strategy, the content of `data_vector`
after `SortDataVector`. -/
def drainVector (self : MiniballConverter) : List MiniballDataPackets :=
  (SortDataVector self).data_vector

/-- Modelled from the spec: `drain` with the map strategy, the packets of `data_vector` read
in the order of the entries of `data_map` after `SortDataMap`. -/
def drainMap (self : MiniballConverter) : List MiniballDataPackets :=
  (SortDataMap self).data_map.filterMap fun e => self.data_vector[e.1]?

/-- The packets stamped with the time `τ`. -/
def atTime (τ : Int) (p : MiniballDataPackets) : Bool := decide (p.time = τ)

/-- The entries of `data_map` whose time has the value `τ`. -/
def keyAtTime (τ : Int) (e : Nat × Double) : Bool := decide (e.2.value = τ)

/-- The (index, time) entries of the packets `l`, the first index being `n`. -/
def indexEntries (n : Nat) : List MiniballDataPackets → List (Nat × Double)
  | [] => []
  | p :: ps => (n, Double.ofLongLong p.time) :: indexEntries (n + 1) ps

/-- The order of the keys of `data_map`: ascending time, then ascending index. -/
def keyLE (a b : Nat × Double) : Prop :=
  a.2.value < b.2.value ∨ (a.2.value = b.2.value ∧ a.1 ≤ b.1)

/-- Exact representability of a 64-bit timestamp as a `double`. -/
def isExactDouble (x : Int) : Prop := (Double.ofLongLong x).value = x

instance (x : Int) : Decidable (isExactDouble x) := by
  unfold isExactDouble; exact inferInstance

/-! ## Arithmetic of the truncating remainder and of the 64-bit reduction -/

theorem wrap64_of_inInt64 {x : Int} (h : inInt64 x) : wrap64 x = x := by
  unfold inInt64 INT64_MIN INT64_MAX at h
  unfold wrap64
  omega

theorem inInt64_wrap64 (x : Int) : inInt64 (wrap64 x) := by
  unfold inInt64 INT64_MIN INT64_MAX wrap64
  omega

theorem tmod_neg_lt {a b : Int} (hb : 0 < b) : -b < Int.tmod a b := by
  have h1 := Int.tmod_add_tdiv a b
  rcases Int.lt_or_le a 0 with ha | ha
  · obtain ⟨n, rfl⟩ := Int.eq_ofNat_of_zero_le (Int.le_of_lt hb)
    obtain ⟨m, rfl⟩ := Int.eq_negSucc_of_lt_zero ha
    have hn : 0 < n := by omega
    have h2 : (m + 1) % n < n := Nat.mod_lt _ hn
    show -(n : Int) < -Int.ofNat ((m + 1) % n)
    have h3 : Int.ofNat ((m + 1) % n) < (n : Int) := Int.ofNat_lt.mpr h2
    omega
  · have := Int.tmod_nonneg b ha
    omega

theorem tmod_emod_eq (a b : Int) : (Int.tmod a b) % b = a % b := by
  have h1 := Int.tmod_add_tdiv a b
  have h2 : a = Int.tmod a b + Int.tdiv a b * b := by rw [Int.mul_comm]; exact h1.symm
  conv_rhs => rw [h2]
  rw [Int.add_mul_emod_self]

/-- The double modulo over the integers: it is the Euclidean remainder. -/
theorem double_tmod_eq_emod (a : Int) {b : Int} (hb : 0 < b) :
    Int.tmod (Int.tmod a b + b) b = a % b := by
  have h1 := tmod_neg_lt (a := a) hb
  rw [Int.tmod_eq_emod (by omega) (Int.le_of_lt hb), Int.add_emod_self, tmod_emod_eq]

theorem test_t_eq_emod (self : MiniballConverter) (t : Int)
    (hpos : 0 < self.ebis_period) (h32 : self.ebis_period ≤ UINT32_MAX) :
    test_t self t = sub64 t self.ebis_tm_stp % (self.ebis_period : Int) := by
  unfold test_t rem64 add64 toLongLong
  have hb : (0 : Int) < Int.ofNat self.ebis_period := Int.ofNat_lt.mpr hpos
  have hu : Int.ofNat self.ebis_period ≤ 4294967295 := by
    unfold UINT32_MAX at h32; exact Int.ofNat_le.mpr h32
  have h1 := tmod_neg_lt (a := sub64 t self.ebis_tm_stp) hb
  have h2 := Int.tmod_lt_of_pos (sub64 t self.ebis_tm_stp) hb
  rw [wrap64_of_inInt64 (by unfold inInt64 INT64_MIN INT64_MAX; omega)]
  exact double_tmod_eq_emod _ hb

theorem sub64_of_inInt64 {a b : Int} (h : inInt64 (a - b)) : sub64 a b = a - b :=
  wrap64_of_inInt64 h

theorem test_t_nonneg (self : MiniballConverter) (t : Int)
    (hpos : 0 < self.ebis_period) (h32 : self.ebis_period ≤ UINT32_MAX) :
    0 ≤ test_t self t := by
  rw [test_t_eq_emod self t hpos h32]
  exact Int.emod_nonneg _ (by omega)

theorem test_t_lt_period (self : MiniballConverter) (t : Int)
    (hpos : 0 < self.ebis_period) (h32 : self.ebis_period ≤ UINT32_MAX) :
    test_t self t < (self.ebis_period : Int) := by
  rw [test_t_eq_emod self t hpos h32]
  exact Int.emod_lt_of_pos _ (by omega)

theorem EBISWindow_fst (self : MiniballConverter) (t : Int) (hpos : 0 < self.ebis_period) :
    (EBISWindow self t).1 = (decide (test_t self t < 4000000) && decide (test_t self t > 0)) := by
  unfold EBISWindow
  rw [if_neg (by omega)]

theorem EBISWindow_true_iff (self : MiniballConverter) (t : Int)
    (hpos : 0 < self.ebis_period) :
    (EBISWindow self t).1 = true ↔ 0 < test_t self t ∧ test_t self t < 4000000 := by
  rw [EBISWindow_fst self t hpos]
  simp only [Bool.and_eq_true, decide_eq_true_eq, gt_iff_lt]
  exact And.comm

theorem EBISWindow_false_iff (self : MiniballConverter) (t : Int)
    (hpos : 0 < self.ebis_period) :
    (EBISWindow self t).1 = false ↔ ¬ (0 < test_t self t ∧ test_t self t < 4000000) := by
  rw [← EBISWindow_true_iff self t hpos]
  simp

theorem test_t_of_repr (self : MiniballConverter) (t : Int)
    (hpos : 0 < self.ebis_period) (h32 : self.ebis_period ≤ UINT32_MAX)
    (hrep : inInt64 (t - self.ebis_tm_stp)) :
    test_t self t = (t - self.ebis_tm_stp) % (self.ebis_period : Int) := by
  rw [test_t_eq_emod self t hpos h32, sub64_of_inInt64 hrep]

theorem recentMarker_isMostRecent (self : MiniballConverter) (t : Int)
    (hpos : 0 < self.ebis_period) : IsMostRecentMarker self t (recentMarker self t) := by
  have hp : (0 : Int) < (self.ebis_period : Int) := by omega
  have hdiv := Int.emod_add_ediv (t - self.ebis_tm_stp) (self.ebis_period : Int)
  have hnn := Int.emod_nonneg (t - self.ebis_tm_stp) (Int.ne_of_gt hp)
  have hlt := Int.emod_lt_of_pos (t - self.ebis_tm_stp) hp
  refine ⟨⟨(t - self.ebis_tm_stp) / (self.ebis_period : Int), ?_⟩, ?_, ?_⟩
  · unfold recentMarker
    rw [Int.mul_comm]
    omega
  · unfold recentMarker
    omega
  · rintro m2 ⟨k2, rfl⟩ hle
    unfold recentMarker
    have hk : k2 ≤ (t - self.ebis_tm_stp) / (self.ebis_period : Int) := by
      by_contra hcon
      have h1 : (t - self.ebis_tm_stp) / (self.ebis_period : Int) + 1 ≤ k2 := by omega
      have h2 := Int.mul_le_mul_of_nonneg_right h1 (Int.le_of_lt hp)
      rw [Int.add_mul, Int.one_mul, Int.mul_comm] at h2
      omega
    have h3 := Int.mul_le_mul_of_nonneg_right hk (Int.le_of_lt hp)
    rw [Int.mul_comm ((t - self.ebis_tm_stp) / (self.ebis_period : Int))] at h3
    omega

theorem mostRecentMarker_unique (self : MiniballConverter) (t m : Int)
    (hpos : 0 < self.ebis_period) (hm : IsMostRecentMarker self t m) :
    m = recentMarker self t := by
  have hr := recentMarker_isMostRecent self t hpos
  have h1 := hm.2.2 _ hr.1 hr.2.1
  have h2 := hr.2.2 _ hm.1 hm.2.1
  omega

theorem EBISWindow_fst_congr (a b : MiniballConverter) (t : Int)
    (hp : a.ebis_period = b.ebis_period) (htm : a.ebis_tm_stp = b.ebis_tm_stp) :
    (EBISWindow a t).1 = (EBISWindow b t).1 := by
  unfold EBISWindow test_t
  rw [hp, htm]
  split <;> rfl

theorem EBISWindowOfWidth_fst_congr (width : Int) (a b : MiniballConverter) (t : Int)
    (hp : a.ebis_period = b.ebis_period) (htm : a.ebis_tm_stp = b.ebis_tm_stp) :
    (EBISWindowOfWidth width a t).1 = (EBISWindowOfWidth width b t).1 := by
  unfold EBISWindowOfWidth test_t
  rw [hp, htm]
  split <;> rfl

/-! ## The EBIS gate: the claims -/

/-- C1: when `ebis_period` is 0, `EBISWindow(t)` returns false for every timestamp `t` and
every value of `ebis_tm_stp` (and of every other member). -/
theorem EBISWindow_period_zero (self : MiniballConverter) (t : Int)
    (h : self.ebis_period = 0) : (EBISWindow self t).1 = false := by
  unfold EBISWindow
  rw [if_pos h]

theorem EBISWindow_period_zero_witness :
    (ebisConverter 0 (-123456789)).ebis_period = 0 ∧
      (EBISWindow (ebisConverter 0 (-123456789)) 987654321).1 = false :=
  ⟨rfl, EBISWindow_period_zero (ebisConverter 0 (-123456789)) 987654321 rfl⟩

/-- C2: for `ebis_period > 0` (an `unsigned int`) and `t - ebis_tm_stp` representable in
signed 64 bits, there is a most recent periodic marker `m` (the greatest
`ebis_tm_stp + k * ebis_period` with `m ≤ t`), and `EBISWindow(t)` returns true if and only
if `0 < t - m < 4000000`. -/
theorem EBISWindow_iff_after_recent_marker (self : MiniballConverter) (t : Int)
    (hpos : 0 < self.ebis_period) (h32 : self.ebis_period ≤ UINT32_MAX)
    (hrep : inInt64 (t - self.ebis_tm_stp)) :
    IsMostRecentMarker self t (recentMarker self t) ∧
      ∀ m : Int, IsMostRecentMarker self t m →
        ((EBISWindow self t).1 = true ↔ 0 < t - m ∧ t - m < 4000000) := by
  refine ⟨recentMarker_isMostRecent self t hpos, fun m hm => ?_⟩
  rw [mostRecentMarker_unique self t m hpos hm, EBISWindow_true_iff self t hpos,
    test_t_of_repr self t hpos h32 hrep]
  unfold recentMarker
  constructor <;> intro h <;> constructor <;> omega

theorem EBISWindow_iff_after_recent_marker_witness :
    IsMostRecentMarker (ebisConverter 10000000 500) (-7000000) (-9999500) ∧
      ((EBISWindow (ebisConverter 10000000 500) (-7000000)).1 = true ↔
        0 < -7000000 - (-9999500 : Int) ∧ -7000000 - (-9999500 : Int) < 4000000) :=
  have h := EBISWindow_iff_after_recent_marker (ebisConverter 10000000 500) (-7000000)
    (by decide) (by decide) (by decide)
  ⟨h.1, h.2 (-9999500) h.1⟩

/-- C3: for `ebis_period > 0` the phase `test_t` computed by the double modulo of
`EBISWindow`, with the truncating remainder of C++, satisfies `0 ≤ test_t < ebis_period` and
is the Euclidean remainder of the `long long` difference `t - ebis_tm_stp`, for every `t` and
`ebis_tm_stp` of either sign; whenever that difference is representable in signed 64 bits it
is the Euclidean remainder of the exact difference, hence congruent to it modulo
`ebis_period`.  Over the unbounded integers the double modulo is the Euclidean remainder
for all `t` and `ebis_tm_stp`. -/
theorem test_t_is_euclidean_remainder (self : MiniballConverter) (t : Int)
    (hpos : 0 < self.ebis_period) (h32 : self.ebis_period ≤ UINT32_MAX) :
    (0 ≤ test_t self t ∧ test_t self t < (self.ebis_period : Int)) ∧
      test_t self t = sub64 t self.ebis_tm_stp % (self.ebis_period : Int) ∧
      (inInt64 (t - self.ebis_tm_stp) →
        test_t self t = (t - self.ebis_tm_stp) % (self.ebis_period : Int) ∧
          (self.ebis_period : Int) ∣ (t - self.ebis_tm_stp) - test_t self t) ∧
      Int.tmod (Int.tmod (t - self.ebis_tm_stp) (self.ebis_period : Int)
          + (self.ebis_period : Int)) (self.ebis_period : Int)
        = (t - self.ebis_tm_stp) % (self.ebis_period : Int) := by
  refine ⟨⟨test_t_nonneg self t hpos h32, test_t_lt_period self t hpos h32⟩,
    test_t_eq_emod self t hpos h32, fun hrep => ?_, double_tmod_eq_emod _ (by omega)⟩
  rw [test_t_of_repr self t hpos h32 hrep]
  exact ⟨rfl, Int.dvd_sub_of_emod_eq rfl⟩

theorem test_t_is_euclidean_remainder_witness :
    (0 ≤ test_t (ebisConverter 100 30) (-7) ∧ test_t (ebisConverter 100 30) (-7) < 100) ∧
      test_t (ebisConverter 100 30) (-7) = 63 ∧ (100 : Int) ∣ (-7 - 30) - 63 := by
  have h := test_t_is_euclidean_remainder (ebisConverter 100 30) (-7) (by decide) (by decide)
  have h3 := h.2.2.1 (by decide)
  exact ⟨h.1, h3.1.trans (by decide), by decide⟩

/-- C4: the EBIS gate is open at both ends.  For `ebis_period > 0`, `EBISWindow(t)` is false
when the phase `test_t` of `t` is exactly 0 and when it is exactly the window width 4000000,
and true when it is 1 or 3999999.  When `t - ebis_tm_stp` is representable in signed 64 bits
the phase is the Euclidean remainder of `t - ebis_tm_stp`, so that the call is false at
`t = ebis_tm_stp + k * ebis_period` for every integer `k` and at
`t = ebis_tm_stp + k * ebis_period + 4000000` (phase 4000000: the period exceeds 4000000),
while `t = ebis_tm_stp + k * ebis_period + 1` and `t = ebis_tm_stp + k * ebis_period + 3999999`
are accepted when `ebis_period` exceeds 1, respectively 3999999.  With
`ebis_period = 10000000` and `ebis_tm_stp = 0`: `EBISWindow(0)` and `EBISWindow(4000000)` are
false and `EBISWindow(2000000)` is true. -/
theorem EBISWindow_open_at_both_ends (self : MiniballConverter) (t k : Int)
    (hpos : 0 < self.ebis_period) (h32 : self.ebis_period ≤ UINT32_MAX) :
    ((test_t self t = 0 → (EBISWindow self t).1 = false) ∧
      (test_t self t = 4000000 → (EBISWindow self t).1 = false) ∧
      (test_t self t = 1 → (EBISWindow self t).1 = true) ∧
      (test_t self t = 3999999 → (EBISWindow self t).1 = true)) ∧
    (inInt64 (t - self.ebis_tm_stp) →
      (((t - self.ebis_tm_stp) % (self.ebis_period : Int) = 0 →
          (EBISWindow self t).1 = false) ∧
        ((t - self.ebis_tm_stp) % (self.ebis_period : Int) = 4000000 →
          (EBISWindow self t).1 = false) ∧
        ((t - self.ebis_tm_stp) % (self.ebis_period : Int) = 1 →
          (EBISWindow self t).1 = true) ∧
        ((t - self.ebis_tm_stp) % (self.ebis_period : Int) = 3999999 →
          (EBISWindow self t).1 = true)) ∧
      ((t = self.ebis_tm_stp + k * (self.ebis_period : Int) →
          (EBISWindow self t).1 = false) ∧
        (t = self.ebis_tm_stp + k * (self.ebis_period : Int) + 4000000 →
          4000000 < self.ebis_period → (EBISWindow self t).1 = false) ∧
        (t = self.ebis_tm_stp + k * (self.ebis_period : Int) + 1 →
          1 < self.ebis_period → (EBISWindow self t).1 = true) ∧
        (t = self.ebis_tm_stp + k * (self.ebis_period : Int) + 3999999 →
          3999999 < self.ebis_period → (EBISWindow self t).1 = true))) ∧
    ((EBISWindow (ebisConverter 10000000 0) 0).1 = false ∧
      (EBISWindow (ebisConverter 10000000 0) 4000000).1 = false ∧
      (EBISWindow (ebisConverter 10000000 0) 2000000).1 = true) := by
  have hp : (0 : Int) < (self.ebis_period : Int) := by omega
  have htrue : ∀ c : Int, test_t self t = c → 0 < c ∧ c < 4000000 →
      (EBISWindow self t).1 = true := by
    intro c hc hn
    rw [EBISWindow_true_iff self t hpos, hc]
    exact hn
  have hfalse : ∀ c : Int, test_t self t = c → ¬ (0 < c ∧ c < 4000000) →
      (EBISWindow self t).1 = false := by
    intro c hc hn
    rw [EBISWindow_false_iff self t hpos, hc]
    exact hn
  refine ⟨⟨fun h => hfalse 0 h (by omega), fun h => hfalse 4000000 h (by omega),
    fun h => htrue 1 h (by omega), fun h => htrue 3999999 h (by omega)⟩, fun hrep => ?_,
    by decide⟩
  have ht := test_t_of_repr self t hpos h32 hrep
  have key : ∀ c : Int, t = self.ebis_tm_stp + k * (self.ebis_period : Int) + c → 0 ≤ c →
      c < (self.ebis_period : Int) → test_t self t = c := by
    intro c htc h0 hc
    have h1 : t - self.ebis_tm_stp = c + k * (self.ebis_period : Int) := by omega
    rw [ht, h1, Int.add_mul_emod_self, Int.emod_eq_of_lt h0 hc]
  refine ⟨⟨fun h => hfalse 0 (ht.trans h) (by omega),
      fun h => hfalse 4000000 (ht.trans h) (by omega),
      fun h => htrue 1 (ht.trans h) (by omega),
      fun h => htrue 3999999 (ht.trans h) (by omega)⟩,
    ⟨fun h => hfalse 0 (key 0 (by omega) (by omega) hp) (by omega),
      fun h hlt => hfalse 4000000 (key 4000000 h (by omega) (by omega)) (by omega),
      fun h hlt => htrue 1 (key 1 h (by omega) (by omega)) (by omega),
      fun h hlt => htrue 3999999 (key 3999999 h (by omega) (by omega)) (by omega)⟩⟩

theorem EBISWindow_open_at_both_ends_witness :
    (EBISWindow (ebisConverter 10000000 17) (-29999983)).1 = false ∧
      (EBISWindow (ebisConverter 10000000 17) (-25999983)).1 = false ∧
      (EBISWindow (ebisConverter 10000000 17) (-29999982)).1 = true ∧
      (EBISWindow (ebisConverter 10000000 17) (-26000001 + 17)).1 = true :=
  ⟨((EBISWindow_open_at_both_ends (ebisConverter 10000000 17) (-29999983) (-3)
      (by decide) (by decide)).2.1 (by decide)).2.1 (by decide),
    ((EBISWindow_open_at_both_ends (ebisConverter 10000000 17) (-25999983) (-3)
      (by decide) (by decide)).2.1 (by decide)).2.2.1 (by decide) (by decide),
    ((EBISWindow_open_at_both_ends (ebisConverter 10000000 17) (-29999982) (-3)
      (by decide) (by decide)).2.1 (by decide)).2.2.2.1 (by decide) (by decide),
    ((EBISWindow_open_at_both_ends (ebisConverter 10000000 17) (-26000001 + 17) (-3)
      (by decide) (by decide)).2.1 (by decide)).2.2.2.2 (by decide) (by decide)⟩

/-- C5: the worked example of the specification.  With `ebis_period = 100`,
`ebis_tm_stp = 0` and the window width taken as 40, the gate is false at 40 (the boundary is
open), true at 20, true at -70 (a negative timestamp that wraps to phase 30) and false at 0.
On the code, whose window width is 4000000, this is the example scaled by 100000: with
`ebis_period = 10000000` and `ebis_tm_stp = 0`, `EBISWindow(4000000)` is false,
`EBISWindow(2000000)` is true, `EBISWindow(-7000000)` is true and `EBISWindow(0)` is false.
The gate of width 4000000 is `EBISWindow` itself. -/
theorem EBISWindow_worked_example (self : MiniballConverter) (t : Int) :
    EBISWindowOfWidth 4000000 self t = EBISWindow self t ∧
      (self.ebis_period = 100 → self.ebis_tm_stp = 0 →
        (EBISWindowOfWidth 40 self 40).1 = false ∧ (EBISWindowOfWidth 40 self 20).1 = true ∧
          (EBISWindowOfWidth 40 self (-70)).1 = true ∧
          (EBISWindowOfWidth 40 self 0).1 = false) ∧
      (self.ebis_period = 10000000 → self.ebis_tm_stp = 0 →
        (EBISWindow self 4000000).1 = false ∧ (EBISWindow self 2000000).1 = true ∧
          (EBISWindow self (-7000000)).1 = true ∧ (EBISWindow self 0).1 = false) := by
  refine ⟨rfl, fun hp htm => ?_, fun hp htm => ?_⟩
  · have h : ∀ u : Int, (EBISWindowOfWidth 40 self u).1
        = (EBISWindowOfWidth 40 (ebisConverter 100 0) u).1 :=
      fun u => EBISWindowOfWidth_fst_congr 40 self (ebisConverter 100 0) u hp htm
    rw [h 40, h 20, h (-70), h 0]
    decide
  · have h : ∀ u : Int, (EBISWindow self u).1 = (EBISWindow (ebisConverter 10000000 0) u).1 :=
      fun u => EBISWindow_fst_congr self (ebisConverter 10000000 0) u hp htm
    rw [h 4000000, h 2000000, h (-7000000), h 0]
    decide

theorem EBISWindow_worked_example_witness :
    ((EBISWindowOfWidth 40 (ebisConverter 100 0) 40).1 = false ∧
        (EBISWindowOfWidth 40 (ebisConverter 100 0) 20).1 = true ∧
        (EBISWindowOfWidth 40 (ebisConverter 100 0) (-70)).1 = true ∧
        (EBISWindowOfWidth 40 (ebisConverter 100 0) 0).1 = false) ∧
      ((EBISWindow (ebisConverter 10000000 0) 4000000).1 = false ∧
        (EBISWindow (ebisConverter 10000000 0) 2000000).1 = true ∧
        (EBISWindow (ebisConverter 10000000 0) (-7000000)).1 = true ∧
        (EBISWindow (ebisConverter 10000000 0) 0).1 = false) :=
  ⟨(EBISWindow_worked_example (ebisConverter 100 0) 0).2.1 rfl rfl,
    (EBISWindow_worked_example (ebisConverter 10000000 0) 0).2.2 rfl rfl⟩

/-- C7: `EBISWindow` is a pure function of `(t, ebis_period, ebis_tm_stp)`.  The call leaves
the whole state of the converter unchanged, and on two states that agree on `ebis_period` and
`ebis_tm_stp` it returns the same result for the same `t`, whatever the other members. -/
theorem EBISWindow_pure (self : MiniballConverter) (t : Int) :
    (EBISWindow self t).2 = self ∧
      ∀ other : MiniballConverter, other.ebis_period = self.ebis_period →
        other.ebis_tm_stp = self.ebis_tm_stp →
        (EBISWindow other t).1 = (EBISWindow self t).1 := by
  constructor
  · unfold EBISWindow
    split <;> rfl
  · intro other hp htm
    exact EBISWindow_fst_congr other self t hp htm

theorem EBISWindow_pure_witness :
    (EBISWindow (ebisConverter 10000000 5) 123).2 = ebisConverter 10000000 5 ∧
      (EBISWindow { ebisConverter 10000000 5 with
          flag_ebis := true, data_ctr := 42, my_tm_stp := 7,
          data_vector := [⟨3, 1⟩], data_map := [(0, ⟨3⟩)] } 123).1
        = (EBISWindow (ebisConverter 10000000 5) 123).1 :=
  ⟨(EBISWindow_pure (ebisConverter 10000000 5) 123).1,
    (EBISWindow_pure (ebisConverter 10000000 5) 123).2 _ rfl rfl⟩

/-- C8: `EBISWindow` is periodic and shift-invariant.  For `ebis_period > 0` and every integer
`k`, with `t - ebis_tm_stp` and `t + k * ebis_period - ebis_tm_stp` representable in signed
64 bits, `EBISWindow(t + k * ebis_period) = EBISWindow(t)`; and for every `d`, the call at
`t + d` with the reference `ebis_tm_stp + d` returns what the call at `t` with the reference
`ebis_tm_stp` returns. -/
theorem EBISWindow_periodic_and_shift_invariant (self : MiniballConverter) (t k d : Int)
    (hpos : 0 < self.ebis_period) (h32 : self.ebis_period ≤ UINT32_MAX)
    (hrep : inInt64 (t - self.ebis_tm_stp))
    (hrepk : inInt64 (t + k * (self.ebis_period : Int) - self.ebis_tm_stp)) :
    (EBISWindow self (t + k * (self.ebis_period : Int))).1 = (EBISWindow self t).1 ∧
      (EBISWindow { self with ebis_tm_stp := self.ebis_tm_stp + d } (t + d)).1
        = (EBISWindow self t).1 := by
  constructor
  · rw [EBISWindow_fst self _ hpos, EBISWindow_fst self t hpos,
      test_t_of_repr self _ hpos h32 hrepk, test_t_of_repr self t hpos h32 hrep]
    have h1 : t + k * (self.ebis_period : Int) - self.ebis_tm_stp
        = (t - self.ebis_tm_stp) + k * (self.ebis_period : Int) := by omega
    rw [h1, Int.add_mul_emod_self]
  · have hshift : test_t { self with ebis_tm_stp := self.ebis_tm_stp + d } (t + d)
        = test_t self t := by
      unfold test_t sub64
      have h2 : t + d - (self.ebis_tm_stp + d) = t - self.ebis_tm_stp := by omega
      simp only [h2]
    rw [EBISWindow_fst _ _ (by exact hpos), EBISWindow_fst self t hpos, hshift]

theorem EBISWindow_periodic_and_shift_invariant_witness :
    (EBISWindow (ebisConverter 10000000 250) (1000 + (-7) * ((10000000 : Nat) : Int))).1
        = (EBISWindow (ebisConverter 10000000 250) 1000).1 ∧
      (EBISWindow { ebisConverter 10000000 250 with ebis_tm_stp := 250 + (-999) }
          (1000 + (-999))).1
        = (EBISWindow (ebisConverter 10000000 250) 1000).1 :=
  EBISWindow_periodic_and_shift_invariant (ebisConverter 10000000 250) 1000 (-7) (-999)
    (by decide) (by decide) (by decide) (by decide)

/-- C9: for `ebis_period` in `1 .. 2^32 - 1` and `t - ebis_tm_stp` representable in signed
64 bits, the evaluation of `EBISWindow` in 64-bit arithmetic with truncating remainder
divides by no zero and overflows in no intermediate step (the checked evaluation returns a
value, and the sum `(x % p) + p` is in the 64-bit range), and the machine result is the result
of the same formula over the unbounded integers. -/
theorem EBISWindow_no_overflow (self : MiniballConverter) (t : Int)
    (hpos : 1 ≤ self.ebis_period) (h32 : self.ebis_period ≤ UINT32_MAX)
    (hrep : inInt64 (t - self.ebis_tm_stp)) :
    EBISWindowChecked self t
        = some (EBISWindowUnbounded self.ebis_period self.ebis_tm_stp t) ∧
      (EBISWindow self t).1 = EBISWindowUnbounded self.ebis_period self.ebis_tm_stp t ∧
      inInt64 (Int.tmod (t - self.ebis_tm_stp) (self.ebis_period : Int)
        + (self.ebis_period : Int)) := by
  have hne : self.ebis_period ≠ 0 := by omega
  have hb : (0 : Int) < (self.ebis_period : Int) := by omega
  have hu : (self.ebis_period : Int) ≤ 4294967295 := by
    unfold UINT32_MAX at h32; omega
  have h1 := tmod_neg_lt (a := t - self.ebis_tm_stp) hb
  have h2 := Int.tmod_lt_of_pos (t - self.ebis_tm_stp) hb
  have hsum : inInt64 (Int.tmod (t - self.ebis_tm_stp) (self.ebis_period : Int)
      + (self.ebis_period : Int)) := by
    unfold inInt64 INT64_MIN INT64_MAX; omega
  have hpz : ¬ (self.ebis_period : Int) = 0 := by omega
  have hpm : ¬ (self.ebis_period : Int) = -1 := by omega
  refine ⟨?_, ?_, hsum⟩
  · unfold EBISWindowChecked EBISWindowUnbounded checkedSub checkedAdd checkedRem toLongLong
    simp only [if_neg hne, if_pos hrep, Option.bind, Int.ofNat_eq_coe, if_neg hpz, hpm,
      and_false, if_false, if_pos hsum]
  · unfold EBISWindow EBISWindowUnbounded test_t rem64 add64 sub64 toLongLong
    simp only [if_neg hne, Int.ofNat_eq_coe, wrap64_of_inInt64 hrep, wrap64_of_inInt64 hsum]

theorem EBISWindow_no_overflow_witness :
    EBISWindowChecked (ebisConverter 4294967295 9223372036854775807) 1
        = some (EBISWindowUnbounded 4294967295 9223372036854775807 1) ∧
      (EBISWindow (ebisConverter 4294967295 9223372036854775807) 1).1
        = EBISWindowUnbounded 4294967295 9223372036854775807 1 ∧
      inInt64 (Int.tmod (1 - 9223372036854775807) ((4294967295 : Nat) : Int)
        + ((4294967295 : Nat) : Int)) :=
  EBISWindow_no_overflow (ebisConverter 4294967295 9223372036854775807) 1
    (by decide) (by decide) (by decide)

/-- C10: when `0 < ebis_period ≤ 4000000` the fixed window covers the whole period, so that
`EBISWindow(t)` is true exactly when the phase `test_t` is not 0: for a representable
difference `t - ebis_tm_stp`, exactly when `t` is not congruent to `ebis_tm_stp` modulo
`ebis_period`, and it is false exactly on the markers.  For every period, the upper bound
`test_t < 4000000` fails only when `ebis_period > 4000000`. -/
theorem EBISWindow_short_period (self : MiniballConverter) (t : Int)
    (hpos : 0 < self.ebis_period) (h32 : self.ebis_period ≤ UINT32_MAX) :
    (self.ebis_period ≤ 4000000 →
        ((EBISWindow self t).1 = true ↔ test_t self t ≠ 0) ∧
          (inInt64 (t - self.ebis_tm_stp) →
            ((EBISWindow self t).1 = true ↔
                ¬ (self.ebis_period : Int) ∣ t - self.ebis_tm_stp) ∧
              ((EBISWindow self t).1 = false ↔ IsMarker self t))) ∧
      (¬ test_t self t < 4000000 → 4000000 < self.ebis_period) := by
  have hlt := test_t_lt_period self t hpos h32
  have hnn := test_t_nonneg self t hpos h32
  refine ⟨fun hle => ⟨?_, fun hrep => ?_⟩, fun h => by omega⟩
  · rw [EBISWindow_true_iff self t hpos]
    constructor
    · intro h; omega
    · intro h; omega
  have ht := test_t_of_repr self t hpos h32 hrep
  have hdvd : (self.ebis_period : Int) ∣ t - self.ebis_tm_stp ↔ test_t self t = 0 := by
    rw [ht]; exact Int.dvd_iff_emod_eq_zero
  have hmark : IsMarker self t ↔ (self.ebis_period : Int) ∣ t - self.ebis_tm_stp := by
    constructor
    · rintro ⟨k, hk⟩
      exact ⟨k, by rw [Int.mul_comm]; omega⟩
    · rintro ⟨k, hk⟩
      exact ⟨k, by rw [Int.mul_comm]; omega⟩
  constructor
  · rw [EBISWindow_true_iff self t hpos, hdvd]
    constructor
    · intro h; omega
    · intro h; omega
  · rw [EBISWindow_false_iff self t hpos, hmark, hdvd]
    constructor
    · intro h; omega
    · intro h; omega

theorem EBISWindow_short_period_witness :
    (((EBISWindow (ebisConverter 3 0) 4000000).1 = true ↔
          ¬ ((3 : Nat) : Int) ∣ 4000000 - 0) ∧
        ((EBISWindow (ebisConverter 3 0) 4000000).1 = false ↔
          IsMarker (ebisConverter 3 0) 4000000)) ∧
      4000000 < (ebisConverter 10000000 0).ebis_period :=
  ⟨((EBISWindow_short_period (ebisConverter 3 0) 4000000 (by decide) (by decide)).1
      (by decide)).2 (by decide),
    (EBISWindow_short_period (ebisConverter 10000000 0) 5000000 (by decide) (by decide)).2
      (by decide)⟩

/-! ## The ordering strategies: stable sorting is unique -/

theorem eq_of_sorted_of_filter_eq :
    ∀ (A B : List MiniballDataPackets),
      A.Pairwise (fun a b => a.time ≤ b.time) → B.Pairwise (fun a b => a.time ≤ b.time) →
      (∀ τ : Int, A.filter (atTime τ) = B.filter (atTime τ)) → A = B := by
  intro A
  induction A with
  | nil =>
    intro B _ _ h
    cases B with
    | nil => rfl
    | cons b B2 =>
      have := h b.time
      simp [atTime, List.filter_cons] at this
  | cons a A2 ih =>
    intro B hA hB h
    cases B with
    | nil =>
      have := h a.time
      simp [atTime, List.filter_cons] at this
    | cons b B2 =>
      have hA2 := List.pairwise_cons.mp hA
      have hB2 := List.pairwise_cons.mp hB
      have ha : a ∈ b :: B2 := by
        have h1 : a ∈ (a :: A2).filter (atTime a.time) := by
          simp [atTime, List.filter_cons]
        rw [h a.time] at h1
        exact (List.mem_filter.mp h1).1
      have hb : b ∈ a :: A2 := by
        have h1 : b ∈ (b :: B2).filter (atTime b.time) := by
          simp [atTime, List.filter_cons]
        rw [← h b.time] at h1
        exact (List.mem_filter.mp h1).1
      have hba : b.time ≤ a.time := by
        rcases List.mem_cons.mp ha with h1 | h1
        · rw [h1]
        · exact hB2.1 a h1
      have hab : a.time ≤ b.time := by
        rcases List.mem_cons.mp hb with h1 | h1
        · rw [h1]
        · exact hA2.1 b h1
      have hteq : b.time = a.time := by omega
      have hhead := h a.time
      have e1 : atTime a.time a = true := by simp [atTime]
      have e2 : atTime a.time b = true := by simp [atTime, hteq]
      rw [List.filter_cons_of_pos e1, List.filter_cons_of_pos e2] at hhead
      have heq : a = b := (List.cons.inj hhead).1
      subst heq
      have htail : ∀ τ : Int, A2.filter (atTime τ) = B2.filter (atTime τ) := by
        intro τ
        have hτ := h τ
        by_cases hc : atTime τ a = true
        · rw [List.filter_cons_of_pos hc, List.filter_cons_of_pos hc] at hτ
          exact (List.cons.inj hτ).2
        · rw [List.filter_cons_of_neg hc, List.filter_cons_of_neg hc] at hτ
          exact hτ
      rw [ih B2 hA2.2 hB2.2 htail]

/-! ## The vector strategy -/

theorem insertFront_perm {α : Type} (comp : α → α → Bool) (x : α) :
    ∀ l : List α, (insertFront comp x l).Perm (x :: l) := by
  intro l
  induction l with
  | nil => exact List.Perm.refl _
  | cons y ys ih =>
    unfold insertFront
    split
    · exact (List.Perm.cons y ih).trans (List.Perm.swap x y ys)
    · exact List.Perm.refl _

theorem stableSort_perm {α : Type} (comp : α → α → Bool) :
    ∀ l : List α, (stableSort comp l).Perm l := by
  intro l
  induction l with
  | nil => exact List.Perm.refl _
  | cons x xs ih =>
    show (insertFront comp x (stableSort comp xs)).Perm (x :: xs)
    exact (insertFront_perm comp x _).trans (List.Perm.cons x ih)

theorem insertFront_sorted (x : MiniballDataPackets) :
    ∀ l : List MiniballDataPackets, l.Pairwise (fun a b => a.time ≤ b.time) →
      (insertFront TimeComparator x l).Pairwise (fun a b => a.time ≤ b.time) := by
  intro l
  induction l with
  | nil =>
    intro _
    simp [insertFront]
  | cons y ys ih =>
    intro h
    have h2 := List.pairwise_cons.mp h
    unfold insertFront
    split
    · rename_i hc
      have hyx : y.time < x.time := by simpa [TimeComparator] using hc
      refine List.pairwise_cons.mpr ⟨?_, ih h2.2⟩
      intro z hz
      rcases List.mem_cons.mp ((insertFront_perm TimeComparator x ys).subset hz) with h3 | h3
      · rw [h3]; omega
      · exact h2.1 z h3
    · rename_i hc
      have hxy : x.time ≤ y.time := by
        have : ¬ y.time < x.time := by simpa [TimeComparator] using hc
        omega
      refine List.pairwise_cons.mpr ⟨?_, h⟩
      intro z hz
      rcases List.mem_cons.mp hz with h3 | h3
      · rw [h3]; exact hxy
      · have := h2.1 z h3
        omega

theorem stableSort_sorted :
    ∀ l : List MiniballDataPackets,
      (stableSort TimeComparator l).Pairwise (fun a b => a.time ≤ b.time) := by
  intro l
  induction l with
  | nil => exact List.Pairwise.nil
  | cons x xs ih =>
    show (insertFront TimeComparator x (stableSort TimeComparator xs)).Pairwise _
    exact insertFront_sorted x _ ih

theorem insertFront_filter (τ : Int) (x : MiniballDataPackets) :
    ∀ l : List MiniballDataPackets,
      (insertFront TimeComparator x l).filter (atTime τ) = (x :: l).filter (atTime τ) := by
  intro l
  induction l with
  | nil => rfl
  | cons y ys ih =>
    unfold insertFront
    split
    · rename_i hc
      have hyx : y.time < x.time := by simpa [TimeComparator] using hc
      by_cases hy : atTime τ y = true
      · have hx : ¬ atTime τ x = true := by
          simp only [atTime, decide_eq_true_eq] at hy ⊢
          omega
        rw [List.filter_cons_of_pos hy, ih, List.filter_cons_of_neg hx,
          List.filter_cons_of_neg hx, List.filter_cons_of_pos hy]
      · rw [List.filter_cons_of_neg hy, ih]
        by_cases hx : atTime τ x = true
        · rw [List.filter_cons_of_pos hx, List.filter_cons_of_pos hx,
            List.filter_cons_of_neg hy]
        · rw [List.filter_cons_of_neg hx, List.filter_cons_of_neg hx,
            List.filter_cons_of_neg hy]
    · rfl

theorem stableSort_filter (τ : Int) :
    ∀ l : List MiniballDataPackets,
      (stableSort TimeComparator l).filter (atTime τ) = l.filter (atTime τ) := by
  intro l
  induction l with
  | nil => rfl
  | cons x xs ih =>
    show (insertFront TimeComparator x (stableSort TimeComparator xs)).filter (atTime τ) = _
    rw [insertFront_filter, List.filter_cons, List.filter_cons, ih]

/-! ## The conversion to `double` -/

theorem roundMagnitude_of_le (n : Nat) (h : n ≤ 9007199254740992) : roundMagnitude n = n := by
  rcases Nat.lt_or_ge n 9007199254740992 with hlt | hge
  · have he : excessBits 64 n = 0 := by
      show (if n < 9007199254740992 then 0 else excessBits 63 (n / 2) + 1) = 0
      rw [if_pos hlt]
    unfold roundMagnitude roundAt
    rw [he]
    simp [Nat.mod_one]
  · have hn : n = 9007199254740992 := by omega
    subst hn
    decide

theorem isExactDouble_of_abs_le (x : Int) (hlo : -9007199254740992 ≤ x)
    (hhi : x ≤ 9007199254740992) : isExactDouble x := by
  unfold isExactDouble Double.ofLongLong
  split
  · rename_i h0
    have h1 : x.toNat ≤ 9007199254740992 := by omega
    rw [roundMagnitude_of_le _ h1]
    show Int.ofNat x.toNat = x
    simp only [Int.ofNat_eq_coe]
    omega
  · rename_i h0
    have h1 : (-x).toNat ≤ 9007199254740992 := by omega
    rw [roundMagnitude_of_le _ h1]
    show -Int.ofNat (-x).toNat = x
    simp only [Int.ofNat_eq_coe]
    omega

theorem Double.eq_of_value_eq (a b : Double) (h : a.value = b.value) : a = b := by
  cases a
  cases b
  simp only [Double.mk.injEq]
  exact h

/-! ## The map strategy -/

theorem mapInsert_perm {α : Type} (comp : α → α → Bool) (e : α) :
    ∀ l : List α, (mapInsert comp e l).Perm (e :: l) := by
  intro l
  induction l with
  | nil => exact List.Perm.refl _
  | cons y ys ih =>
    unfold mapInsert
    split
    · exact List.Perm.refl _
    · exact (List.Perm.cons y ih).trans (List.Perm.swap e y ys)

theorem foldl_mapInsert_perm {α : Type} (comp : α → α → Bool) :
    ∀ (l acc : List α),
      (l.foldl (fun acc e => mapInsert comp e acc) acc).Perm (acc ++ l) := by
  intro l
  induction l with
  | nil =>
    intro acc
    simp
  | cons e es ih =>
    intro acc
    rw [List.foldl_cons]
    refine (ih (mapInsert comp e acc)).trans ?_
    refine ((mapInsert_perm comp e acc).append_right es).trans ?_
    exact List.perm_middle.symm

theorem mapInsertAll_perm {α : Type} (comp : α → α → Bool) (l : List α) :
    (mapInsertAll comp l).Perm l := by
  have h := foldl_mapInsert_perm comp l []
  simpa [mapInsertAll] using h

theorem MapComparator_iff (a b : Nat × Double) :
    MapComparator a b = true ↔
      a.2.value < b.2.value ∨ (a.2.value = b.2.value ∧ a.1 < b.1) := by
  simp [MapComparator]

theorem mapInsert_sorted (e : Nat × Double) :
    ∀ l : List (Nat × Double), l.Pairwise keyLE →
      (mapInsert MapComparator e l).Pairwise keyLE := by
  intro l
  induction l with
  | nil =>
    intro _
    simp [mapInsert]
  | cons y ys ih =>
    intro h
    have h2 := List.pairwise_cons.mp h
    unfold mapInsert
    split
    · rename_i hc
      have hey := (MapComparator_iff e y).mp hc
      refine List.pairwise_cons.mpr ⟨?_, h⟩
      intro z hz
      rcases List.mem_cons.mp hz with h3 | h3
      · rw [h3]; unfold keyLE; omega
      · have := h2.1 z h3
        unfold keyLE at this ⊢
        omega
    · rename_i hc
      have hey : ¬ (e.2.value < y.2.value ∨ (e.2.value = y.2.value ∧ e.1 < y.1)) :=
        fun hh => hc ((MapComparator_iff e y).mpr hh)
      refine List.pairwise_cons.mpr ⟨?_, ih h2.2⟩
      intro z hz
      rcases List.mem_cons.mp ((mapInsert_perm MapComparator e ys).subset hz) with h3 | h3
      · rw [h3]; unfold keyLE; omega
      · exact h2.1 z h3

theorem foldl_mapInsert_sorted :
    ∀ (l acc : List (Nat × Double)), acc.Pairwise keyLE →
      (l.foldl (fun acc e => mapInsert MapComparator e acc) acc).Pairwise keyLE := by
  intro l
  induction l with
  | nil =>
    intro acc h
    exact h
  | cons e es ih =>
    intro acc h
    rw [List.foldl_cons]
    exact ih _ (mapInsert_sorted e acc h)

theorem mapInsertAll_sorted (l : List (Nat × Double)) :
    (mapInsertAll MapComparator l).Pairwise keyLE :=
  foldl_mapInsert_sorted l [] List.Pairwise.nil

theorem getElem?_append_cons_length {α : Type} (pre : List α) (q : α) (qs : List α) :
    (pre ++ q :: qs)[pre.length]? = some q := by
  rw [List.getElem?_append_right (Nat.le_refl _)]
  simp

theorem indexEntries_le (l : List MiniballDataPackets) :
    ∀ (n : Nat) (e : Nat × Double), e ∈ indexEntries n l → n ≤ e.1 := by
  induction l with
  | nil =>
    intro n e h
    simp [indexEntries] at h
  | cons p ps ih =>
    intro n e h
    unfold indexEntries at h
    rcases List.mem_cons.mp h with h1 | h1
    · rw [h1]
    · have := ih (n + 1) e h1
      omega

theorem indexEntries_increasing (l : List MiniballDataPackets) :
    ∀ n : Nat, (indexEntries n l).Pairwise (fun a b => a.1 < b.1) := by
  induction l with
  | nil =>
    intro n
    exact List.Pairwise.nil
  | cons p ps ih =>
    intro n
    unfold indexEntries
    refine List.pairwise_cons.mpr ⟨?_, ih (n + 1)⟩
    intro z hz
    have := indexEntries_le ps (n + 1) z hz
    show n < z.1
    omega

theorem indexEntries_lookup (suf : List MiniballDataPackets) :
    ∀ (pre : List MiniballDataPackets) (e : Nat × Double), e ∈ indexEntries pre.length suf →
      ∃ p : MiniballDataPackets,
        (pre ++ suf)[e.1]? = some p ∧ Double.ofLongLong p.time = e.2 := by
  induction suf with
  | nil =>
    intro pre e h
    simp [indexEntries] at h
  | cons q qs ih =>
    intro pre e h
    unfold indexEntries at h
    rcases List.mem_cons.mp h with h1 | h1
    · refine ⟨q, ?_, by rw [h1]⟩
      rw [h1]
      exact getElem?_append_cons_length pre q qs
    · have h2 := ih (pre ++ [q]) e (by simpa using h1)
      simpa using h2

theorem indexEntries_lookup_exact (pkts : List MiniballDataPackets)
    (hexact : ∀ p ∈ pkts, isExactDouble p.time) :
    ∀ e ∈ indexEntries 0 pkts,
      ∃ p : MiniballDataPackets, pkts[e.1]? = some p ∧ p.time = e.2.value := by
  intro e he
  obtain ⟨p, hp, hd⟩ := indexEntries_lookup pkts [] e he
  rw [List.nil_append] at hp
  refine ⟨p, hp, ?_⟩
  have hx := hexact p (List.getElem?_mem hp)
  unfold isExactDouble at hx
  rw [← hd, hx]

theorem indexEntries_filterMap (suf : List MiniballDataPackets) :
    ∀ pre : List MiniballDataPackets,
      (indexEntries pre.length suf).filterMap (fun e => (pre ++ suf)[e.1]?) = suf := by
  induction suf with
  | nil =>
    intro pre
    rfl
  | cons q qs ih =>
    intro pre
    unfold indexEntries
    have h1 : (pre ++ q :: qs)[pre.length]? = some q :=
      getElem?_append_cons_length pre q qs
    have h2 := ih (pre ++ [q])
    simp only [List.length_append, List.length_singleton, List.append_assoc,
      List.singleton_append] at h2
    simp only [List.filterMap_cons, h1, h2]

theorem mapInsertAll_filter (τ : Int) (n : Nat) (pkts : List MiniballDataPackets) :
    (mapInsertAll MapComparator (indexEntries n pkts)).filter (keyAtTime τ)
      = (indexEntries n pkts).filter (keyAtTime τ) := by
  haveI : IsAntisymm (Nat × Double) (fun a b => a.1 ≤ b.1 ∧ a.2.value = b.2.value) :=
    ⟨fun a b hab hba =>
      Prod.ext (Nat.le_antisymm hab.1 hba.1) (Double.eq_of_value_eq _ _ hab.2)⟩
  refine List.eq_of_perm_of_sorted
    (r := fun a b : Nat × Double => a.1 ≤ b.1 ∧ a.2.value = b.2.value)
    ((mapInsertAll_perm MapComparator (indexEntries n pkts)).filter _) ?_ ?_
  · refine List.Pairwise.imp_of_mem ?_
      ((mapInsertAll_sorted (indexEntries n pkts)).filter (keyAtTime τ))
    intro a b ha hb hab
    have h1 : a.2.value = τ := by simpa [keyAtTime] using (List.mem_filter.mp ha).2
    have h2 : b.2.value = τ := by simpa [keyAtTime] using (List.mem_filter.mp hb).2
    unfold keyLE at hab
    constructor <;> omega
  · refine List.Pairwise.imp_of_mem ?_
      ((indexEntries_increasing pkts n).filter (keyAtTime τ))
    intro a b ha hb hab
    have h1 : a.2.value = τ := by simpa [keyAtTime] using (List.mem_filter.mp ha).2
    have h2 : b.2.value = τ := by simpa [keyAtTime] using (List.mem_filter.mp hb).2
    constructor <;> omega

theorem filter_filterMap_lookup (τ : Int) (g : Nat × Double → Option MiniballDataPackets) :
    ∀ S : List (Nat × Double), (∀ e ∈ S, ∃ p, g e = some p ∧ p.time = e.2.value) →
      (S.filterMap g).filter (atTime τ) = (S.filter (keyAtTime τ)).filterMap g := by
  intro S
  induction S with
  | nil =>
    intro _
    rfl
  | cons e es ih =>
    intro h
    obtain ⟨p, hg, ht⟩ := h e (List.mem_cons_self e es)
    have ih2 := ih (fun e2 he2 => h e2 (List.mem_cons_of_mem e he2))
    rw [List.filterMap_cons_some hg]
    by_cases hc : keyAtTime τ e = true
    · have hp : atTime τ p = true := by
        simp only [atTime, keyAtTime, decide_eq_true_eq] at hc ⊢
        omega
      rw [List.filter_cons_of_pos hp, List.filter_cons_of_pos hc,
        List.filterMap_cons_some hg, ih2]
    · have hp : ¬ atTime τ p = true := by
        simp only [atTime, keyAtTime, decide_eq_true_eq] at hc ⊢
        omega
      rw [List.filter_cons_of_neg hp, List.filter_cons_of_neg hc, ih2]

theorem filterMap_lookup_sorted (g : Nat × Double → Option MiniballDataPackets) :
    ∀ S : List (Nat × Double), (∀ e ∈ S, ∃ p, g e = some p ∧ p.time = e.2.value) →
      S.Pairwise keyLE → (S.filterMap g).Pairwise (fun a b => a.time ≤ b.time) := by
  intro S
  induction S with
  | nil =>
    intro _ _
    exact List.Pairwise.nil
  | cons e es ih =>
    intro h hs
    have hs2 := List.pairwise_cons.mp hs
    obtain ⟨p, hg, ht⟩ := h e (List.mem_cons_self e es)
    rw [List.filterMap_cons_some hg]
    refine List.pairwise_cons.mpr
      ⟨?_, ih (fun e2 he2 => h e2 (List.mem_cons_of_mem e he2)) hs2.2⟩
    intro q hq
    obtain ⟨e2, he2, hge2⟩ := List.mem_filterMap.mp hq
    obtain ⟨p2, hg2, ht2⟩ := h e2 (List.mem_cons_of_mem e he2)
    have hpq : p2 = q := Option.some.inj (hg2.symm.trans hge2)
    have hle := hs2.1 e2 he2
    unfold keyLE at hle
    rw [← hpq]
    omega

theorem foldl_enqueue (pkts : List MiniballDataPackets) :
    ∀ c : MiniballConverter,
      (pkts.foldl enqueue c).data_vector = c.data_vector ++ pkts ∧
        (pkts.foldl enqueue c).data_map
          = c.data_map ++ indexEntries c.data_vector.length pkts := by
  induction pkts with
  | nil =>
    intro c
    simp [indexEntries]
  | cons p ps ih =>
    intro c
    rw [List.foldl_cons]
    obtain ⟨h1, h2⟩ := ih (enqueue c p)
    rw [h1, h2]
    simp [enqueue, indexEntries]

theorem loadPackets_data_vector (self : MiniballConverter) (pkts : List MiniballDataPackets) :
    (loadPackets self pkts).data_vector = pkts := by
  unfold loadPackets
  rw [(foldl_enqueue pkts _).1]
  rfl

theorem loadPackets_data_map (self : MiniballConverter) (pkts : List MiniballDataPackets) :
    (loadPackets self pkts).data_map = indexEntries 0 pkts := by
  unfold loadPackets
  rw [(foldl_enqueue pkts _).2]
  rfl

theorem drainVector_loadPackets (self : MiniballConverter) (pkts : List MiniballDataPackets) :
    drainVector (loadPackets self pkts) = stableSort TimeComparator pkts := by
  unfold drainVector SortDataVector
  simp only [loadPackets_data_vector]

theorem drainMap_loadPackets (self : MiniballConverter) (pkts : List MiniballDataPackets) :
    drainMap (loadPackets self pkts)
      = (mapInsertAll MapComparator (indexEntries 0 pkts)).filterMap
          (fun e => pkts[e.1]?) := by
  unfold drainMap SortDataMap
  simp only [loadPackets_data_vector, loadPackets_data_map]

theorem mapInsertAll_lookup (pkts : List MiniballDataPackets)
    (hexact : ∀ p ∈ pkts, isExactDouble p.time) :
    ∀ e ∈ mapInsertAll MapComparator (indexEntries 0 pkts),
      ∃ p : MiniballDataPackets, pkts[e.1]? = some p ∧ p.time = e.2.value :=
  fun e he => indexEntries_lookup_exact pkts hexact e
    ((mapInsertAll_perm MapComparator (indexEntries 0 pkts)).subset he)

theorem mapOrder_sorted (pkts : List MiniballDataPackets)
    (hexact : ∀ p ∈ pkts, isExactDouble p.time) :
    ((mapInsertAll MapComparator (indexEntries 0 pkts)).filterMap
      (fun e => pkts[e.1]?)).Pairwise (fun a b => a.time ≤ b.time) :=
  filterMap_lookup_sorted _ _ (mapInsertAll_lookup pkts hexact) (mapInsertAll_sorted _)

theorem mapOrder_filter (τ : Int) (pkts : List MiniballDataPackets)
    (hexact : ∀ p ∈ pkts, isExactDouble p.time) :
    ((mapInsertAll MapComparator (indexEntries 0 pkts)).filterMap
      (fun e => pkts[e.1]?)).filter (atTime τ) = pkts.filter (atTime τ) := by
  rw [filter_filterMap_lookup τ _ _ (mapInsertAll_lookup pkts hexact), mapInsertAll_filter,
    ← filter_filterMap_lookup τ _ _ (indexEntries_lookup_exact pkts hexact)]
  have h := indexEntries_filterMap pkts []
  simp only [List.length_nil, List.nil_append] at h
  rw [h]

/-! ## The ordering strategies: the claim -/

/-- C6, as amended: for the same packets, enqueued in any order of arrival, the vector
strategy (`SortDataVector` with `TimeComparator` over `data_vector`) yields an order that is
non-decreasing in time, holds the packets that were enqueued and keeps the order of arrival
of the packets of equal time; and when every timestamp is exactly representable as a
`double`, the type of the time of an entry of `data_map`, the map strategy (`SortDataMap`
with `MapComparator` over `data_map`) yields exactly the same order.  Every timestamp of
magnitude at most `2 ^ 53` is exactly representable. -/
theorem drainVector_eq_drainMap_of_exact (self : MiniballConverter)
    (pkts : List MiniballDataPackets) :
    ((drainVector (loadPackets self pkts)).Pairwise (fun a b => a.time ≤ b.time) ∧
        (drainVector (loadPackets self pkts)).Perm pkts ∧
        ∀ τ : Int, (drainVector (loadPackets self pkts)).filter (atTime τ)
          = pkts.filter (atTime τ)) ∧
      ((∀ p ∈ pkts, isExactDouble p.time) →
        drainVector (loadPackets self pkts) = drainMap (loadPackets self pkts)) ∧
      (∀ x : Int, -9007199254740992 ≤ x → x ≤ 9007199254740992 → isExactDouble x) := by
  rw [drainVector_loadPackets, drainMap_loadPackets]
  refine ⟨⟨stableSort_sorted pkts, stableSort_perm TimeComparator pkts,
    fun τ => stableSort_filter τ pkts⟩, fun hexact => ?_, isExactDouble_of_abs_le⟩
  refine eq_of_sorted_of_filter_eq _ _ (stableSort_sorted pkts)
    (mapOrder_sorted pkts hexact) ?_
  intro τ
  rw [stableSort_filter, mapOrder_filter τ pkts hexact]

theorem drainVector_eq_drainMap_of_exact_witness :
    drainVector (loadPackets freshConverter
        [⟨5, 0⟩, ⟨-3, 1⟩, ⟨5, 2⟩, ⟨9007199254740992, 3⟩, ⟨-3, 4⟩, ⟨1152921504606846976, 5⟩])
      = drainMap (loadPackets freshConverter
        [⟨5, 0⟩, ⟨-3, 1⟩, ⟨5, 2⟩, ⟨9007199254740992, 3⟩, ⟨-3, 4⟩, ⟨1152921504606846976, 5⟩]) :=
  (drainVector_eq_drainMap_of_exact freshConverter
    [⟨5, 0⟩, ⟨-3, 1⟩, ⟨5, 2⟩, ⟨9007199254740992, 3⟩, ⟨-3, 4⟩, ⟨1152921504606846976, 5⟩]).2.1
    (by decide)

/-- C6, the claim as stated fails: the packet of time `2 ^ 53 + 1` enqueued before the packet
of time `2 ^ 53`.  Both times are the same `double`, so the map strategy keeps the order of
arrival, which is decreasing in time, while the vector strategy puts the earlier time first. -/
theorem drainVector_ne_drainMap_above_2_pow_53 :
    drainVector (loadPackets freshConverter [⟨9007199254740993, 0⟩, ⟨9007199254740992, 1⟩])
        = [⟨9007199254740992, 1⟩, ⟨9007199254740993, 0⟩] ∧
      drainMap (loadPackets freshConverter [⟨9007199254740993, 0⟩, ⟨9007199254740992, 1⟩])
        = [⟨9007199254740993, 0⟩, ⟨9007199254740992, 1⟩] ∧
      drainVector (loadPackets freshConverter [⟨9007199254740993, 0⟩, ⟨9007199254740992, 1⟩])
        ≠ drainMap (loadPackets freshConverter
            [⟨9007199254740993, 0⟩, ⟨9007199254740992, 1⟩]) ∧
      ¬ (drainMap (loadPackets freshConverter
          [⟨9007199254740993, 0⟩, ⟨9007199254740992, 1⟩])).Pairwise
            (fun a b => a.time ≤ b.time) := by
  decide

end Miniball
